import Mathlib

/-!
Verification of the assetstore server (src/app.js): a shallow embedding of the
session asset metadata store, the write-verify-commit upload pipeline
(`putAndPostHandler`), and the two retrieval routes (`GET /:session` and
`GET /:session/:filename`).

Modelling conventions:
- Byte payloads are `List Nat`; only their contents and lengths matter.
- The filesystem is an association list from paths to byte contents, plus the
  list of existing directories.  The metadata store (nedb) is a list of
  session documents in insertion order; `db.find` is a filter on `sessionId`.
- The md5 digest is abstracted by a fixed deterministic executable function
  `md5 : Bytes -> Nat`; none of the verified properties depend on anything
  beyond its determinism.
- Asynchronous I/O outcomes that the JS runtime decides (a rejected
  `fs.writeFile`, the bytes actually present on disk after the write, a failed
  `fs.mkdir`) are supplied explicitly through a `Fault` record.  A fault-free
  execution uses `Fault.clean`.
- The source's promise chains use two-argument `.then(onOk, onErr)` where the
  `onErr` handlers `return error`, which RESOLVES the chain with the error as a
  value and lets the next `onOk` run.  The embedding reproduces this control
  flow exactly (see `overwritePath`, `createPath`): a rejected write skips the
  hashing step and feeds the error value (`HashVal.errVal`) into the commit
  step, just as the JS code does.
- A promise that never settles (reading a nonexistent file: the read stream
  never emits `end`), and a handler branch that never calls `res.*`, both
  leave the client without any response; these are the `noResponse` outcomes.
-/

namespace AssetStore

/-- Byte sequences (file contents and request payloads). -/
abbrev Bytes := List Nat

/-- Model of the md5 content digest used by the pipeline: a fixed
deterministic function of the byte sequence, rendered as a 128-bit number.
The verified claims use only determinism of the digest, so the concrete
mixing function stands in for md5. -/
def md5 (bs : Bytes) : Nat :=
  bs.foldl (fun a b => (a * 131 + b + 1) % 2 ^ 128) 0

/-- The value stored in an `AssetRecord.hash` field.  The JS code can commit
either a real digest string or, on a swallowed rejection, the error object
that a `.then` rejection handler returned as a value. -/
inductive HashVal where
  | digest (d : Nat)
  | errVal
deriving DecidableEq, Repr

/-- One asset's metadata, as in the data-model comment of src/app.js. -/
structure AssetRecord where
  path : String
  modified : Nat
  size : Nat
  mime : String
  updated : Nat
  hash : HashVal
deriving DecidableEq, Repr

/-- A session document: `{ sessionId, assets }` with `assets` a string-keyed
object, modelled as an association list in insertion order. -/
structure SessionDoc where
  sessionId : String
  assets : List (String × AssetRecord)
deriving DecidableEq, Repr

/-- Global server state: the nedb document list, the files on disk
(path to contents), and the set of existing directories. -/
structure St where
  store : List SessionDoc
  fs : List (String × Bytes)
  dirs : List String
deriving DecidableEq, Repr

/-- Association-list lookup (JS object property read / file content at a
path).  Returns `none` when the key is absent. -/
def lookupEntry {β : Type} : List (String × β) → String → Option β
  | [], _ => none
  | e :: rest, k => if e.1 = k then some e.2 else lookupEntry rest k

/-- Association-list update: overwrite the entry at `k` or append a fresh one
(JS object property write / file creation or overwrite). -/
def setEntry {β : Type} : List (String × β) → String → β → List (String × β)
  | [], k, v => [(k, v)]
  | e :: rest, k, v => if e.1 = k then (k, v) :: rest else e :: setEntry rest k v

/-- `db.find({ sessionId: s })`: all documents whose `sessionId` equals `s`. -/
def findDocs (store : List SessionDoc) (s : String) : List SessionDoc :=
  store.filter (fun d => d.sessionId == s)

/-- The base directory for files (`fileBaseDir` in src/app.js; the concrete
string is irrelevant, only the path-join structure matters). -/
def fileBaseDir : String := "files"

/-- `path.join(fileBaseDir, session)`. -/
def dirPathOf (s : String) : String := fileBaseDir ++ "/" ++ s

/-- `path.join(dirPath, filename)`. -/
def filePathOf (s f : String) : String := dirPathOf s ++ "/" ++ f

/-- `filename.split('.')`, transcribed on the character list: split at every
occurrence of the dot character. -/
def splitOnDot : List Char → List (List Char)
  | [] => [[]]
  | c :: cs =>
    if c = '.' then [] :: splitOnDot cs
    else
      match splitOnDot cs with
      | [] => [[c]]
      | h :: t => (c :: h) :: t

/-- `const fileKey = req.params.filename.split('.')[0]` — the derived asset
key, used identically by the upload handler and the file retrieval handler. -/
def fileKeyOf (f : String) : String :=
  String.mk ((splitOnDot f.toList).headD [])

/-- Characters at which the mime library's extension extraction stops
(`path.replace(/.*[\.\/\\]/, '')`). -/
def sepChar (c : Char) : Bool := c == '.' || c == '/' || c == '\\'

/-- Extension extraction of `mime.lookup`: the suffix of the path after the
last dot, slash or backslash (the whole path when none occurs). -/
def extOf (p : String) : String :=
  String.mk ((p.toList.reverse.takeWhile (fun c => !sepChar c)).reverse)

/-- A representative cut of the mime extension table; unknown extensions map
to the library's default type. -/
def mimeTable (e : String) : String :=
  if e = "wav" then "audio/wav"
  else if e = "txt" then "text/plain"
  else if e = "json" then "application/json"
  else if e = "html" then "text/html"
  else "application/octet-stream"

/-- ASCII lowercasing of one character (the extension lowercasing of
`mime.lookup`). -/
def lowerChar (c : Char) : Char :=
  if 65 ≤ c.toNat ∧ c.toNat ≤ 90 then Char.ofNat (c.toNat + 32) else c

/-- ASCII lowercasing of a string, character by character. -/
def lowerStr (s : String) : String := String.mk (s.toList.map lowerChar)

/-- `mime.lookup(path)`: the type for the lowercased extracted extension. -/
def mimeLookup (p : String) : String := mimeTable (lowerStr (extOf p))

/-- Environment-decided outcomes of the asynchronous I/O steps of one upload:
whether `fs.writeFile` rejects, the bytes present at the target path after the
write attempt (`none` = the path's content is unchanged), and whether
`fs.mkdir` rejects on the create path. -/
structure Fault where
  wRej : Bool
  wDisk : Option Bytes
  mkRej : Bool
deriving DecidableEq, Repr

/-- The fault-free execution: the write resolves and the disk holds exactly
the request payload, directory creation succeeds. -/
def Fault.clean (data : Bytes) : Fault := ⟨false, some data, false⟩

/-- Effect of the `fs.writeFile` attempt on the filesystem. -/
def applyWrite (fs : List (String × Bytes)) (p : String) (flt : Fault) :
    List (String × Bytes) :=
  match flt.wDisk with
  | some c => setEntry fs p c
  | none => fs

/-- Upload responses: `res.json(200, ...)`, `res.json(503, ...)`, or no
response at all (a promise that never settles, or a handler branch that never
responds). -/
inductive UploadResponse where
  | ok200
  | err503
  | noResponse
deriving DecidableEq, Repr

/-- `GET /:session` outcomes. -/
inductive GetSessionResult where
  | notFound404
  | ok200 (doc : SessionDoc)
  | noResponse
deriving DecidableEq, Repr

/-- `GET /:session/:filename` outcomes.  `notFound` is the 404-style response
the specification's retrieval contract calls for; `exn` is a synchronous
exception thrown inside the `db.find` callback (reading `.path` of an
undefined asset entry, or `fs.statSync` on a missing path). -/
inductive GetFileResult where
  | notFound
  | stream (contentType : String) (bytes : Bytes)
  | exn
  | noResponse
deriving DecidableEq, Repr

/-- `db.update({sessionId: s}, {$set ..., $inc ...}, {upsert: true})`: modify
the first matching document in place; insert a document built from the query
and the modifiers when none matches. -/
def upsertDoc (store : List SessionDoc) (s k : String) (r : AssetRecord) :
    List SessionDoc :=
  match store with
  | [] => [⟨s, [(k, r)]⟩]
  | d :: rest =>
    if d.sessionId = s then { d with assets := setEntry d.assets k r } :: rest
    else d :: upsertDoc rest s k r

/-- The `.then((filehash) => { if (statSync(filePath).size === data.length) ... })`
step of the overwrite branch, followed by the final response step.
`statSync` throws when the path has no file (rejecting the chain into the 503
handler); on a size match the record is committed via `db.update`; on a size
mismatch NOTHING happens and the chain still resolves into the 200 handler. -/
def commitStep (st : St) (d : SessionDoc) (s f : String) (data : Bytes)
    (now : Nat) (h : HashVal) : St × UploadResponse :=
  match lookupEntry st.fs (filePathOf s f) with
  | none => (st, UploadResponse.err503)
  | some c =>
    if c.length = data.length then
      ({ st with
          store := upsertDoc st.store s (fileKeyOf f)
            { path := filePathOf s f
              modified := now
              size := data.length
              mime := mimeLookup (filePathOf s f)
              updated :=
                match lookupEntry d.assets (fileKeyOf f) with
                | some r => r.updated + 1
                | none => 0
              hash := h } },
        UploadResponse.ok200)
    else (st, UploadResponse.ok200)

/-- Overwrite branch of `putAndPostHandler` (`docs.length === 1`):
write the file, then hash it by re-reading it from disk, then the commit
step.  A rejected write is swallowed by the `error => { return error; }`
handler, skipping the hash step and passing the error value on as `filehash`.
Reading back a nonexistent file never resolves (no response). -/
def overwritePath (st : St) (d : SessionDoc) (s f : String) (data : Bytes)
    (now : Nat) (flt : Fault) : St × UploadResponse :=
  let st1 : St := { st with fs := applyWrite st.fs (filePathOf s f) flt }
  if flt.wRej then commitStep st1 d s f data now HashVal.errVal
  else
    match lookupEntry st1.fs (filePathOf s f) with
    | none => (st1, UploadResponse.noResponse)
    | some c => commitStep st1 d s f data now (HashVal.digest (md5 c))

/-- The `.then((filehash) => { if (fs.statSync(filePath).isFile()) ... })`
step of the create branch, followed by the final response step.  Note: unlike
the overwrite branch, the commit condition is only that the file EXISTS — the
on-disk size is never compared against the payload length, and the committed
`size` field is the declared `req.params.data.length`. -/
def createCommit (st : St) (s f : String) (data : Bytes) (now : Nat)
    (h : HashVal) : St × UploadResponse :=
  match lookupEntry st.fs (filePathOf s f) with
  | none => (st, UploadResponse.err503)
  | some _ =>
    ({ st with
        store := st.store ++
          [⟨s, [(fileKeyOf f,
            { path := filePathOf s f
              modified := now
              size := data.length
              mime := mimeLookup (filePathOf s f)
              updated := 0
              hash := h })]⟩] },
      UploadResponse.ok200)

/-- Create branch after the directory step: write the file, hash by re-read,
then `createCommit`.  The same error-swallowing `.then` structure as the
overwrite branch applies. -/
def afterDirWrite (st : St) (s f : String) (data : Bytes) (now : Nat)
    (flt : Fault) : St × UploadResponse :=
  let st1 : St := { st with fs := applyWrite st.fs (filePathOf s f) flt }
  if flt.wRej then createCommit st1 s f data now HashVal.errVal
  else
    match lookupEntry st1.fs (filePathOf s f) with
    | none => (st1, UploadResponse.noResponse)
    | some c => createCommit st1 s f data now (HashVal.digest (md5 c))

/-- Create branch of `putAndPostHandler` (`docs.length === 0`):
`fs.stat(dirPath)`; on ENOENT, `fs.mkdir(dirPath)`.  A rejected mkdir is
swallowed (`(error) => { return error; }`), which SKIPS the file write and
proceeds straight to the hash step on whatever file may already exist. -/
def createPath (st : St) (s f : String) (data : Bytes) (now : Nat)
    (flt : Fault) : St × UploadResponse :=
  if st.dirs.contains (dirPathOf s) then
    afterDirWrite st s f data now flt
  else if flt.mkRej then
    match lookupEntry st.fs (filePathOf s f) with
    | none => (st, UploadResponse.noResponse)
    | some c => createCommit st s f data now (HashVal.digest (md5 c))
  else
    afterDirWrite { st with dirs := dirPathOf s :: st.dirs } s f data now flt

/-- `putAndPostHandler` of src/app.js: `db.find({sessionId})`, then the
overwrite branch when exactly one document matches, the create branch when
none does, and — with no `else` in the source — NOTHING at all when more
than one matches: no state change and no response. -/
def putAndPostHandler (st : St) (s f : String) (data : Bytes) (now : Nat)
    (flt : Fault) : St × UploadResponse :=
  match findDocs st.store s with
  | [] => createPath st s f data now flt
  | [d] => overwritePath st d s f data now flt
  | _ => (st, UploadResponse.noResponse)

/-- `GET /:session`: 404 when no document matches, the document as JSON when
exactly one does, and no response when several do. -/
def getSessionHandler (st : St) (s : String) : St × GetSessionResult :=
  match findDocs st.store s with
  | [] => (st, GetSessionResult.notFound404)
  | [d] => (st, GetSessionResult.ok200 d)
  | _ => (st, GetSessionResult.noResponse)

/-- `GET /:session/:filename`: on zero matching documents the handler only
logs (no response); on one match it dereferences
`sessionObject.assets[fileKey].path` (throwing when the key is absent) and
`fs.statSync` on the recorded path (throwing when the file is gone), then
streams the file bytes with the recorded mime as content type. -/
def getFileHandler (st : St) (s f : String) : St × GetFileResult :=
  match findDocs st.store s with
  | [] => (st, GetFileResult.noResponse)
  | [d] =>
    match lookupEntry d.assets (fileKeyOf f) with
    | none => (st, GetFileResult.exn)
    | some r =>
      match lookupEntry st.fs r.path with
      | none => (st, GetFileResult.exn)
      | some c => (st, GetFileResult.stream r.mime c)
  | _ => (st, GetFileResult.noResponse)

/-- The asset record of session `s` at key `k` visible through `db.find`
(none when the session document is absent or duplicated). -/
def recordOf (st : St) (s k : String) : Option AssetRecord :=
  match findDocs st.store s with
  | [d] => lookupEntry d.assets k
  | _ => none

/-! Association-list, key-derivation and path helper lemmas. -/

theorem lookupEntry_setEntry_self {β : Type} (l : List (String × β)) (k : String) (v : β) :
    lookupEntry (setEntry l k v) k = some v := by
  induction l with
  | nil => simp [setEntry, lookupEntry]
  | cons e rest ih =>
    by_cases h : e.1 = k
    · simp [setEntry, lookupEntry, h]
    · simp [setEntry, lookupEntry, h, ih]

theorem lookupEntry_setEntry_other {β : Type} (l : List (String × β)) (k k' : String) (v : β)
    (h : k' ≠ k) : lookupEntry (setEntry l k v) k' = lookupEntry l k' := by
  have h' : ¬ k = k' := fun hc => h hc.symm
  induction l with
  | nil => simp [setEntry, lookupEntry, h']
  | cons e rest ih =>
    by_cases he : e.1 = k
    · simp [setEntry, lookupEntry, he, h']
    · simp [setEntry, lookupEntry, he, ih]

theorem splitOnDot_ne_nil (l : List Char) : splitOnDot l ≠ [] := by
  cases l with
  | nil => simp [splitOnDot]
  | cons c cs =>
    simp only [splitOnDot]
    split
    · simp
    · split <;> simp

theorem splitOnDot_headD (l : List Char) :
    (splitOnDot l).headD [] = l.takeWhile (fun c => c != '.') := by
  induction l with
  | nil => rfl
  | cons c cs ih =>
    by_cases h : c = '.'
    · simp [splitOnDot, List.takeWhile_cons, h]
    · have hb : (c != '.') = true := by simp [h]
      cases hs : splitOnDot cs with
      | nil => exact absurd hs (splitOnDot_ne_nil cs)
      | cons hd tl =>
        rw [hs] at ih
        simp only [List.headD] at ih
        simp [splitOnDot, List.takeWhile_cons, h, hb, hs, ih]

theorem fileKeyOf_eq_takeWhile (f : String) :
    fileKeyOf f = String.mk (f.toList.takeWhile (fun c => c != '.')) := by
  rw [fileKeyOf, splitOnDot_headD]

theorem takeWhile_append_stop {p : Char → Bool} (l m : List Char) (c : Char)
    (h : p c = false) : (l ++ c :: m).takeWhile p = l.takeWhile p := by
  induction l with
  | nil => simp [List.takeWhile_cons, h]
  | cons a l ih =>
    simp only [List.cons_append, List.takeWhile_cons]
    cases hp : p a <;> simp [hp, ih]

theorem mk_toList (f : String) : String.mk f.toList = f := by
  cases f
  rfl

theorem extOf_slash_append (d f : String) : extOf (d ++ "/" ++ f) = extOf f := by
  unfold extOf
  have hdata : (d ++ "/" ++ f).toList = d.toList ++ '/' :: f.toList := by
    simp [String.toList, String.data_append]
  rw [hdata]
  have hrev : (d.toList ++ '/' :: f.toList).reverse
      = f.toList.reverse ++ '/' :: d.toList.reverse := by
    simp
  rw [hrev, takeWhile_append_stop _ _ _ (by simp [sepChar])]

theorem mimeLookup_filePathOf (s f : String) :
    mimeLookup (filePathOf s f) = mimeLookup f := by
  unfold mimeLookup filePathOf
  rw [extOf_slash_append]

theorem findDocs_nil (s : String) : findDocs [] s = [] := rfl

theorem findDocs_cons_pos (d : SessionDoc) (rest : List SessionDoc) (s : String)
    (h : d.sessionId = s) : findDocs (d :: rest) s = d :: findDocs rest s := by
  simp [findDocs, h]

theorem findDocs_cons_neg (d : SessionDoc) (rest : List SessionDoc) (s : String)
    (h : ¬ d.sessionId = s) : findDocs (d :: rest) s = findDocs rest s := by
  simp [findDocs, h]

theorem findDocs_append_singleton (store : List SessionDoc) (doc : SessionDoc) (s : String)
    (hdoc : doc.sessionId = s) :
    findDocs (store ++ [doc]) s = findDocs store s ++ [doc] := by
  simp [findDocs, List.filter_append, hdoc]

theorem findDocs_upsertDoc (store : List SessionDoc) (s k : String) (r : AssetRecord)
    (d : SessionDoc) (h : findDocs store s = [d]) :
    findDocs (upsertDoc store s k r) s = [{ d with assets := setEntry d.assets k r }] := by
  induction store with
  | nil => simp [findDocs] at h
  | cons d0 rest ih =>
    by_cases h0 : d0.sessionId = s
    · rw [findDocs_cons_pos d0 rest s h0] at h
      obtain ⟨rfl, hrest⟩ : d0 = d ∧ findDocs rest s = [] := by
        constructor
        · exact (List.cons_eq_cons.mp h).1
        · exact (List.cons_eq_cons.mp h).2
      simp only [upsertDoc, if_pos h0]
      rw [findDocs_cons_pos _ rest s (by simpa using h0), hrest]
    · rw [findDocs_cons_neg d0 rest s h0] at h
      simp only [upsertDoc, if_neg h0]
      rw [findDocs_cons_neg d0 _ s h0]
      exact ih h

/-! Characterization of a fault-free upload on the create and overwrite
branches. -/

theorem clean_upload_create (st : St) (s f : String) (data : Bytes) (now : Nat)
    (h : findDocs st.store s = []) :
    putAndPostHandler st s f data now (Fault.clean data) =
      ({ store := st.store ++
            [⟨s, [(fileKeyOf f,
              { path := filePathOf s f
                modified := now
                size := data.length
                mime := mimeLookup (filePathOf s f)
                updated := 0
                hash := HashVal.digest (md5 data) })]⟩]
         fs := setEntry st.fs (filePathOf s f) data
         dirs := if st.dirs.contains (dirPathOf s) then st.dirs
                 else dirPathOf s :: st.dirs },
       UploadResponse.ok200) := by
  unfold putAndPostHandler
  rw [h]
  by_cases hd : dirPathOf s ∈ st.dirs <;>
    simp [createPath, afterDirWrite, createCommit, applyWrite, Fault.clean, hd,
      lookupEntry_setEntry_self]

theorem clean_upload_overwrite (st : St) (d : SessionDoc) (s f : String)
    (data : Bytes) (now : Nat) (h : findDocs st.store s = [d]) :
    putAndPostHandler st s f data now (Fault.clean data) =
      ({ store := upsertDoc st.store s (fileKeyOf f)
            { path := filePathOf s f
              modified := now
              size := data.length
              mime := mimeLookup (filePathOf s f)
              updated :=
                match lookupEntry d.assets (fileKeyOf f) with
                | some r => r.updated + 1
                | none => 0
              hash := HashVal.digest (md5 data) }
         fs := setEntry st.fs (filePathOf s f) data
         dirs := st.dirs },
       UploadResponse.ok200) := by
  unfold putAndPostHandler
  rw [h]
  simp [overwritePath, commitStep, applyWrite, Fault.clean,
    lookupEntry_setEntry_self]

/-- After a fault-free upload the document list seen by `db.find` for the
session is a single document carrying the committed record at the derived
key, and the file on disk holds the payload. -/
theorem clean_upload_post (st : St) (s f : String) (data : Bytes) (now : Nat)
    (h : (findDocs st.store s).length ≤ 1) :
    (putAndPostHandler st s f data now (Fault.clean data)).2 = UploadResponse.ok200 ∧
    recordOf (putAndPostHandler st s f data now (Fault.clean data)).1 s (fileKeyOf f) =
      some { path := filePathOf s f
             modified := now
             size := data.length
             mime := mimeLookup (filePathOf s f)
             updated :=
               match recordOf st s (fileKeyOf f) with
               | some r => r.updated + 1
               | none => 0
             hash := HashVal.digest (md5 data) } ∧
    lookupEntry (putAndPostHandler st s f data now (Fault.clean data)).1.fs
      (filePathOf s f) = some data ∧
    (∀ k', k' ≠ fileKeyOf f →
      recordOf (putAndPostHandler st s f data now (Fault.clean data)).1 s k' =
        recordOf st s k') := by
  cases hf : findDocs st.store s with
  | nil =>
    rw [clean_upload_create st s f data now hf]
    refine ⟨rfl, ?_, ?_, ?_⟩
    · rw [recordOf, findDocs_append_singleton st.store _ s rfl, hf]
      simp [lookupEntry, recordOf, hf]
    · exact lookupEntry_setEntry_self _ _ _
    · intro k' hk
      have hk' : ¬ fileKeyOf f = k' := fun hc => hk hc.symm
      rw [recordOf, findDocs_append_singleton st.store _ s rfl, hf]
      simp [lookupEntry, hk', recordOf, hf]
  | cons d rest =>
    cases rest with
    | nil =>
      rw [clean_upload_overwrite st d s f data now hf]
      refine ⟨rfl, ?_, ?_, ?_⟩
      · rw [recordOf, findDocs_upsertDoc st.store s (fileKeyOf f) _ d hf]
        simp [lookupEntry_setEntry_self, recordOf, hf]
      · exact lookupEntry_setEntry_self _ _ _
      · intro k' hk
        rw [recordOf, findDocs_upsertDoc st.store s (fileKeyOf f) _ d hf]
        simp only [recordOf, hf]
        exact lookupEntry_setEntry_other d.assets (fileKeyOf f) k' _ hk
    | cons d2 rest2 => simp [hf] at h

theorem recordOf_mk (store : List SessionDoc) (fs : List (String × Bytes))
    (dirs : List String) (s k : String) :
    recordOf ⟨store, fs, dirs⟩ s k =
      (match findDocs store s with
       | [d] => lookupEntry d.assets k
       | _ => none) := rfl

theorem recordOf_append_new (store : List SessionDoc) (fs : List (String × Bytes))
    (dirs : List String) (s : String) (assets : List (String × AssetRecord))
    (k : String) (hf : findDocs store s = []) :
    recordOf ⟨store ++ [⟨s, assets⟩], fs, dirs⟩ s k = lookupEntry assets k := by
  rw [recordOf_mk, findDocs_append_singleton store ⟨s, assets⟩ s rfl, hf,
    List.nil_append]

theorem recordOf_upsert (store : List SessionDoc) (fs : List (String × Bytes))
    (dirs : List String) (s k k' : String) (r : AssetRecord) (d : SessionDoc)
    (hf : findDocs store s = [d]) :
    recordOf ⟨upsertDoc store s k r, fs, dirs⟩ s k' =
      lookupEntry (setEntry d.assets k r) k' := by
  rw [recordOf_mk, findDocs_upsertDoc store s k r d hf]

/-- From a visible record, the session lookup returns exactly one document
holding it. -/
theorem recordOf_some (st : St) (s k : String) (r : AssetRecord)
    (h : recordOf st s k = some r) :
    ∃ d, findDocs st.store s = [d] ∧ lookupEntry d.assets k = some r := by
  unfold recordOf at h
  cases hf : findDocs st.store s with
  | nil => rw [hf] at h; simp at h
  | cons d rest =>
    cases rest with
    | nil => rw [hf] at h; exact ⟨d, rfl, h⟩
    | cons d2 rest2 => rw [hf] at h; simp at h

/-- A fault-free upload followed by retrieval of the same filename streams
the uploaded bytes with the mime type derived from the filename. -/
theorem clean_upload_getFile (st : St) (s f : String) (data : Bytes) (now : Nat)
    (h : (findDocs st.store s).length ≤ 1) :
    getFileHandler (putAndPostHandler st s f data now (Fault.clean data)).1 s f =
      ((putAndPostHandler st s f data now (Fault.clean data)).1,
        GetFileResult.stream (mimeLookup f) data) := by
  obtain ⟨-, hrec, hfile, -⟩ := clean_upload_post st s f data now h
  obtain ⟨d', hfd, hld⟩ := recordOf_some _ _ _ _ hrec
  simp only [getFileHandler, hfd, hld]
  simp [hfile, mimeLookup_filePathOf]

/-! The claims. -/

/-- C1 — the claim that the integrity gate (no commit when the on-disk size
differs from the declared payload length) holds on the create path fails on
the code: with no session document, a write that leaves 1 byte on disk for a
declared 3-byte payload still commits an AssetRecord (the create branch only
checks `fs.statSync(filePath).isFile()`, never the size), and the record's
`size` field is the declared 3, not the on-disk 1. -/
theorem C1_create_commits_on_size_mismatch :
    putAndPostHandler ⟨[], [], []⟩ "s1" "a.wav" [1, 2, 3] 0 ⟨false, some [1], false⟩ =
      ({ store := [⟨"s1", [("a",
            { path := "files/s1/a.wav"
              modified := 0
              size := 3
              mime := "audio/wav"
              updated := 0
              hash := HashVal.digest (md5 [1]) })]⟩]
         fs := [("files/s1/a.wav", [1])]
         dirs := ["files/s1"] },
       UploadResponse.ok200) ∧
    ([1] : Bytes).length ≠ ([1, 2, 3] : Bytes).length := by
  exact ⟨by decide, by decide⟩

/-- C2 — the claim that any pipeline-stage failure yields a server error and
no committed metadata fails on the code: on the overwrite branch a rejected
`fs.writeFile` is swallowed by the `error => { return error; }` handler, the
chain continues, `statSync` finds the stale previous file whose size matches
the new payload's declared length, an AssetRecord is committed (with the
error object in its `hash` field), and the response is 200. -/
theorem C2_write_failure_still_commits_and_succeeds :
    putAndPostHandler
      ⟨[⟨"s1", [("a",
          { path := "files/s1/a.wav"
            modified := 0
            size := 3
            mime := "audio/wav"
            updated := 0
            hash := HashVal.digest (md5 [9, 9, 9]) })]⟩],
        [("files/s1/a.wav", [9, 9, 9])], ["files/s1"]⟩
      "s1" "a.wav" [1, 2, 3] 7 ⟨true, none, false⟩ =
      ({ store := [⟨"s1", [("a",
            { path := "files/s1/a.wav"
              modified := 7
              size := 3
              mime := "audio/wav"
              updated := 1
              hash := HashVal.errVal })]⟩]
         fs := [("files/s1/a.wav", [9, 9, 9])]
         dirs := ["files/s1"] },
       UploadResponse.ok200) := by
  decide

/-- C3 counterexample — retrieving from an unknown session does NOT give the
caller a NotFound response: the handler only logs and never responds. -/
theorem C3_unknown_session_no_notfound :
    getFileHandler ⟨[], [], []⟩ "s1" "a.wav" =
      (⟨[], [], []⟩, GetFileResult.noResponse) ∧
    GetFileResult.noResponse ≠ GetFileResult.notFound := by
  exact ⟨rfl, by decide⟩

/-- C3 (amended) — in all three not-found situations no content bytes are
streamed, but the caller does not receive a NotFound response: an unknown
session produces no response at all, while a known session with an absent
asset key, or with a recorded path that no longer exists on disk, raises an
exception inside the handler. -/
theorem C3_no_notfound_no_stream (st : St) (s f : String) :
    (findDocs st.store s = [] →
      (getFileHandler st s f).2 = GetFileResult.noResponse) ∧
    (∀ d, findDocs st.store s = [d] →
      lookupEntry d.assets (fileKeyOf f) = none →
      (getFileHandler st s f).2 = GetFileResult.exn) ∧
    (∀ d r, findDocs st.store s = [d] →
      lookupEntry d.assets (fileKeyOf f) = some r →
      lookupEntry st.fs r.path = none →
      (getFileHandler st s f).2 = GetFileResult.exn) := by
  refine ⟨?_, ?_, ?_⟩
  · intro hf
    simp [getFileHandler, hf]
  · intro d hf hl
    simp [getFileHandler, hf, hl]
  · intro d r hf hl hp
    simp [getFileHandler, hf, hl, hp]

/-- Witness for the amended C3, covering all three cases concretely. -/
theorem C3_no_notfound_no_stream_witness :
    (findDocs (St.mk [] [] []).store "s1" = [] ∧
      (getFileHandler ⟨[], [], []⟩ "s1" "a.wav").2 = GetFileResult.noResponse) ∧
    (findDocs (St.mk [⟨"s2", []⟩] [] []).store "s2" = [⟨"s2", []⟩] ∧
      lookupEntry (SessionDoc.mk "s2" []).assets (fileKeyOf "a.wav") = none ∧
      (getFileHandler ⟨[⟨"s2", []⟩], [], []⟩ "s2" "a.wav").2 = GetFileResult.exn) ∧
    (findDocs (St.mk [⟨"s3", [("a",
        { path := "files/s3/a.wav", modified := 0, size := 1,
          mime := "audio/wav", updated := 0, hash := HashVal.digest 0 })]⟩] [] []).store
        "s3" =
      [⟨"s3", [("a",
        { path := "files/s3/a.wav", modified := 0, size := 1,
          mime := "audio/wav", updated := 0, hash := HashVal.digest 0 })]⟩] ∧
      (getFileHandler ⟨[⟨"s3", [("a",
        { path := "files/s3/a.wav", modified := 0, size := 1,
          mime := "audio/wav", updated := 0, hash := HashVal.digest 0 })]⟩], [], []⟩
        "s3" "a.wav").2 = GetFileResult.exn) := by
  refine ⟨⟨by decide, ?_⟩, ⟨by decide, by decide, ?_⟩, ⟨by decide, ?_⟩⟩
  · exact (C3_no_notfound_no_stream ⟨[], [], []⟩ "s1" "a.wav").1 (by decide)
  · exact (C3_no_notfound_no_stream ⟨[⟨"s2", []⟩], [], []⟩ "s2" "a.wav").2.1
      ⟨"s2", []⟩ (by decide) (by decide)
  · exact (C3_no_notfound_no_stream
      ⟨[⟨"s3", [("a",
        { path := "files/s3/a.wav", modified := 0, size := 1,
          mime := "audio/wav", updated := 0, hash := HashVal.digest 0 })]⟩], [], []⟩
      "s3" "a.wav").2.2
      ⟨"s3", [("a",
        { path := "files/s3/a.wav", modified := 0, size := 1,
          mime := "audio/wav", updated := 0, hash := HashVal.digest 0 })]⟩
      { path := "files/s3/a.wav", modified := 0, size := 1,
        mime := "audio/wav", updated := 0, hash := HashVal.digest 0 }
      (by decide) (by decide) (by decide)

/-- C8 — a session lookup returning more than one document is never silently
resolved: the upload handler commits nothing and changes no state, and both
retrieval handlers stream nothing and respond with nothing; no arbitrarily
chosen document is acted upon (the source has no branch for this case at
all, so the request simply receives no response). -/
theorem C8_duplicate_docs_no_action (st : St) (s f : String) (data : Bytes)
    (now : Nat) (flt : Fault) (h : 2 ≤ (findDocs st.store s).length) :
    putAndPostHandler st s f data now flt = (st, UploadResponse.noResponse) ∧
    getSessionHandler st s = (st, GetSessionResult.noResponse) ∧
    getFileHandler st s f = (st, GetFileResult.noResponse) := by
  cases hf : findDocs st.store s with
  | nil => rw [hf] at h; exact absurd h (by simp)
  | cons d rest =>
    cases rest with
    | nil => rw [hf] at h; exact absurd h (by simp)
    | cons d2 rest2 =>
      exact ⟨by simp [putAndPostHandler, hf],
        by simp [getSessionHandler, hf], by simp [getFileHandler, hf]⟩

/-- Witness for C8: a store holding two documents for the same session id. -/
theorem C8_duplicate_docs_no_action_witness :
    2 ≤ (findDocs (St.mk [⟨"s1", []⟩, ⟨"s1", []⟩] [] []).store "s1").length ∧
    putAndPostHandler ⟨[⟨"s1", []⟩, ⟨"s1", []⟩], [], []⟩ "s1" "a.wav" [1] 0
        (Fault.clean [1]) =
      (⟨[⟨"s1", []⟩, ⟨"s1", []⟩], [], []⟩, UploadResponse.noResponse) ∧
    getSessionHandler ⟨[⟨"s1", []⟩, ⟨"s1", []⟩], [], []⟩ "s1" =
      (⟨[⟨"s1", []⟩, ⟨"s1", []⟩], [], []⟩, GetSessionResult.noResponse) ∧
    getFileHandler ⟨[⟨"s1", []⟩, ⟨"s1", []⟩], [], []⟩ "s1" "a.wav" =
      (⟨[⟨"s1", []⟩, ⟨"s1", []⟩], [], []⟩, GetFileResult.noResponse) := by
  refine ⟨by decide, ?_⟩
  exact C8_duplicate_docs_no_action ⟨[⟨"s1", []⟩, ⟨"s1", []⟩], [], []⟩ "s1" "a.wav"
    [1] 0 (Fault.clean [1]) (by decide)

/-- C4 — updated counter: a successful (fault-free) upload responds 200 and
commits a record at the derived key whose `updated` field is 0 when no record
existed for that (session, assetKey) — covering both a fresh session document
and a fresh key in an existing document — and is the prior record's `updated`
plus exactly 1 otherwise; records at every other key of the session are left
unchanged. -/
theorem C4_updated_counter (st : St) (s f : String) (data : Bytes) (now : Nat)
    (h : (findDocs st.store s).length ≤ 1) :
    (putAndPostHandler st s f data now (Fault.clean data)).2 = UploadResponse.ok200 ∧
    ∃ r, recordOf (putAndPostHandler st s f data now (Fault.clean data)).1 s
        (fileKeyOf f) = some r ∧
      r.updated = (match recordOf st s (fileKeyOf f) with
                   | some r0 => r0.updated + 1
                   | none => 0) ∧
      ∀ k', k' ≠ fileKeyOf f →
        recordOf (putAndPostHandler st s f data now (Fault.clean data)).1 s k' =
          recordOf st s k' := by
  obtain ⟨hok, hrec, -, hframe⟩ := clean_upload_post st s f data now h
  exact ⟨hok, _, hrec, rfl, hframe⟩

/-- Witness for C4: first upload to a fresh session commits `updated = 0`. -/
theorem C4_updated_counter_witness :
    (findDocs (St.mk [] [] []).store "s1").length ≤ 1 ∧
    ((putAndPostHandler ⟨[], [], []⟩ "s1" "a.wav" [1, 2] 5 (Fault.clean [1, 2])).2 =
        UploadResponse.ok200 ∧
      ∃ r, recordOf (putAndPostHandler ⟨[], [], []⟩ "s1" "a.wav" [1, 2] 5
          (Fault.clean [1, 2])).1 "s1" (fileKeyOf "a.wav") = some r ∧
        r.updated = (match recordOf ⟨[], [], []⟩ "s1" (fileKeyOf "a.wav") with
                     | some r0 => r0.updated + 1
                     | none => 0) ∧
        ∀ k', k' ≠ fileKeyOf "a.wav" →
          recordOf (putAndPostHandler ⟨[], [], []⟩ "s1" "a.wav" [1, 2] 5
            (Fault.clean [1, 2])).1 "s1" k' = recordOf ⟨[], [], []⟩ "s1" k') :=
  ⟨by decide, C4_updated_counter ⟨[], [], []⟩ "s1" "a.wav" [1, 2] 5 (by decide)⟩

/-- C5 — round-trip: a fault-free upload of payload `b` to
`(session, filename)` responds 200, and retrieving `(session, filename)`
afterwards streams exactly `b` with content type equal to the mime type the
upload derived from the filename's extension. -/
theorem C5_roundtrip (st : St) (s f : String) (data : Bytes) (now : Nat)
    (h : (findDocs st.store s).length ≤ 1) :
    (putAndPostHandler st s f data now (Fault.clean data)).2 = UploadResponse.ok200 ∧
    getFileHandler (putAndPostHandler st s f data now (Fault.clean data)).1 s f =
      ((putAndPostHandler st s f data now (Fault.clean data)).1,
        GetFileResult.stream (mimeLookup f) data) :=
  ⟨(clean_upload_post st s f data now h).1, clean_upload_getFile st s f data now h⟩

/-- Witness for C5 at a concrete payload, session and filename. -/
theorem C5_roundtrip_witness :
    (findDocs (St.mk [] [] []).store "s9").length ≤ 1 ∧
    ((putAndPostHandler ⟨[], [], []⟩ "s9" "tone.wav" [3, 1, 4] 2
        (Fault.clean [3, 1, 4])).2 = UploadResponse.ok200 ∧
      getFileHandler (putAndPostHandler ⟨[], [], []⟩ "s9" "tone.wav" [3, 1, 4] 2
          (Fault.clean [3, 1, 4])).1 "s9" "tone.wav" =
        ((putAndPostHandler ⟨[], [], []⟩ "s9" "tone.wav" [3, 1, 4] 2
            (Fault.clean [3, 1, 4])).1,
          GetFileResult.stream (mimeLookup "tone.wav") [3, 1, 4])) :=
  ⟨by decide, C5_roundtrip ⟨[], [], []⟩ "s9" "tone.wav" [3, 1, 4] 2 (by decide)⟩

/-- C6 — key derivation: the derived assetKey is the substring of the
filename before the first dot; hence `foo.wav` and `foo.txt` both derive the
key `foo`, and after uploading `foo.wav` then `foo.txt` in the same session
the record at key `foo` is the second upload's record (its path, size and
hash come from the second upload) with `updated` one more than after the
first upload. -/
theorem C6_key_derivation :
    (∀ f : String, fileKeyOf f = String.mk (f.toList.takeWhile (fun c => c != '.'))) ∧
    fileKeyOf "foo.wav" = "foo" ∧ fileKeyOf "foo.txt" = "foo" ∧
    ∀ (st : St) (s : String) (d1 d2 : Bytes) (n1 n2 : Nat),
      (findDocs st.store s).length ≤ 1 →
      ∃ r1 r2,
        recordOf (putAndPostHandler st s "foo.wav" d1 n1 (Fault.clean d1)).1 s
          "foo" = some r1 ∧
        r1.path = filePathOf s "foo.wav" ∧
        recordOf (putAndPostHandler
            (putAndPostHandler st s "foo.wav" d1 n1 (Fault.clean d1)).1
            s "foo.txt" d2 n2 (Fault.clean d2)).1 s "foo" = some r2 ∧
        r2.path = filePathOf s "foo.txt" ∧
        r2.size = d2.length ∧
        r2.hash = HashVal.digest (md5 d2) ∧
        r2.updated = r1.updated + 1 := by
  refine ⟨fileKeyOf_eq_takeWhile, by decide, by decide, ?_⟩
  intro st s d1 d2 n1 n2 h
  have hk1 : fileKeyOf "foo.wav" = "foo" := by decide
  have hk2 : fileKeyOf "foo.txt" = "foo" := by decide
  obtain ⟨-, hrec1, -, -⟩ := clean_upload_post st s "foo.wav" d1 n1 h
  rw [hk1] at hrec1
  obtain ⟨dmid, hfdmid, -⟩ := recordOf_some _ _ _ _ hrec1
  have h2 : (findDocs (putAndPostHandler st s "foo.wav" d1 n1
      (Fault.clean d1)).1.store s).length ≤ 1 := by
    rw [hfdmid]; simp
  obtain ⟨-, hrec2, -, -⟩ := clean_upload_post _ s "foo.txt" d2 n2 h2
  rw [hk2] at hrec2
  rw [hrec1] at hrec2
  exact ⟨_, _, hrec1, rfl, hrec2, rfl, rfl, rfl, rfl⟩

/-- Witness for C6: the two-upload scenario run from an empty store. -/
theorem C6_key_derivation_witness :
    (findDocs (St.mk [] [] []).store "s1").length ≤ 1 ∧
    ∃ r1 r2,
      recordOf (putAndPostHandler ⟨[], [], []⟩ "s1" "foo.wav" [1] 0
          (Fault.clean [1])).1 "s1" "foo" = some r1 ∧
      r1.path = filePathOf "s1" "foo.wav" ∧
      recordOf (putAndPostHandler
          (putAndPostHandler ⟨[], [], []⟩ "s1" "foo.wav" [1] 0 (Fault.clean [1])).1
          "s1" "foo.txt" [2, 3] 1 (Fault.clean [2, 3])).1 "s1" "foo" = some r2 ∧
      r2.path = filePathOf "s1" "foo.txt" ∧
      r2.size = ([2, 3] : Bytes).length ∧
      r2.hash = HashVal.digest (md5 [2, 3]) ∧
      r2.updated = r1.updated + 1 :=
  ⟨by decide, C6_key_derivation.2.2.2 ⟨[], [], []⟩ "s1" [1] [2, 3] 0 1 (by decide)⟩

/-- C7 — hash from persisted bytes: in any upload whose asynchronous stages
do not reject (no write rejection, no mkdir rejection, but with the bytes
actually left on disk arbitrary — possibly different from the payload), the
record visible afterwards at the derived key is either the untouched prior
record, or a record committed by this request whose `hash` field is the
digest of the bytes of the file at its recorded path in the post state — the
digest of what was re-read from disk, not of the in-memory payload. -/
theorem C7_hash_from_disk (st : St) (s f : String) (data : Bytes) (now : Nat)
    (flt : Fault) (r : AssetRecord)
    (hw : flt.wRej = false) (hm : flt.mkRej = false)
    (hr : recordOf (putAndPostHandler st s f data now flt).1 s (fileKeyOf f) =
      some r) :
    recordOf st s (fileKeyOf f) = some r ∨
    ∃ c, lookupEntry (putAndPostHandler st s f data now flt).1.fs r.path = some c ∧
      r.hash = HashVal.digest (md5 c) := by
  cases hf : findDocs st.store s with
  | nil =>
    refine Or.inr ?_
    cases hlc : lookupEntry (applyWrite st.fs (filePathOf s f) flt)
        (filePathOf s f) with
    | none =>
      have hput : putAndPostHandler st s f data now flt =
          (⟨st.store, applyWrite st.fs (filePathOf s f) flt,
            if dirPathOf s ∈ st.dirs then st.dirs else dirPathOf s :: st.dirs⟩,
           UploadResponse.noResponse) := by
        by_cases hd : dirPathOf s ∈ st.dirs <;>
          simp [putAndPostHandler, hf, createPath, hd, hm, afterDirWrite, hw, hlc]
      rw [hput] at hr
      simp only [recordOf_mk, hf] at hr
      exact absurd hr (by simp)
    | some c =>
      have hput : putAndPostHandler st s f data now flt =
          (⟨st.store ++ [⟨s, [(fileKeyOf f,
              { path := filePathOf s f
                modified := now
                size := data.length
                mime := mimeLookup (filePathOf s f)
                updated := 0
                hash := HashVal.digest (md5 c) })]⟩],
            applyWrite st.fs (filePathOf s f) flt,
            if dirPathOf s ∈ st.dirs then st.dirs else dirPathOf s :: st.dirs⟩,
           UploadResponse.ok200) := by
        by_cases hd : dirPathOf s ∈ st.dirs <;>
          simp [putAndPostHandler, hf, createPath, hd, hm, afterDirWrite, hw, hlc,
            createCommit]
      rw [hput] at hr ⊢
      rw [recordOf_append_new _ _ _ _ _ _ hf] at hr
      simp only [lookupEntry, if_pos rfl] at hr
      obtain rfl : _ = r := Option.some.inj hr
      exact ⟨c, hlc, rfl⟩
  | cons d rest =>
    cases rest with
    | nil =>
      have hput : putAndPostHandler st s f data now flt =
          overwritePath st d s f data now flt := by
        simp [putAndPostHandler, hf]
      rw [hput] at hr ⊢
      simp only [overwritePath, hw, Bool.false_eq_true, if_false] at hr ⊢
      cases hlc : lookupEntry (applyWrite st.fs (filePathOf s f) flt)
          (filePathOf s f) with
      | none =>
        simp only [hlc] at hr
        refine Or.inl ?_
        simpa [recordOf, hf] using hr
      | some c =>
        simp only [hlc, commitStep] at hr ⊢
        by_cases hlen : c.length = data.length
        · simp only [if_pos hlen] at hr ⊢
          rw [recordOf] at hr
          rw [findDocs_upsertDoc st.store s (fileKeyOf f) _ d hf] at hr
          simp only [lookupEntry_setEntry_self] at hr
          obtain rfl : _ = r := Option.some.inj hr
          exact Or.inr ⟨c, hlc, rfl⟩
        · simp only [if_neg hlen] at hr
          refine Or.inl ?_
          simpa [recordOf, hf] using hr
    | cons d2 rest2 =>
      have hput : putAndPostHandler st s f data now flt =
          (st, UploadResponse.noResponse) := by
        simp [putAndPostHandler, hf]
      rw [hput] at hr
      exact Or.inl hr

/-- Witness for C7: a create-path upload whose write resolves but leaves a
truncated 1-byte file for a 3-byte payload; the committed hash is the digest
of the on-disk byte, not of the payload. -/
theorem C7_hash_from_disk_witness :
    (⟨false, some [1], false⟩ : Fault).wRej = false ∧
    (⟨false, some [1], false⟩ : Fault).mkRej = false ∧
    recordOf (putAndPostHandler ⟨[], [], []⟩ "s1" "a.wav" [1, 2, 3] 0
        ⟨false, some [1], false⟩).1 "s1" (fileKeyOf "a.wav") =
      some { path := "files/s1/a.wav", modified := 0, size := 3,
             mime := "audio/wav", updated := 0, hash := HashVal.digest (md5 [1]) } ∧
    (recordOf ⟨[], [], []⟩ "s1" (fileKeyOf "a.wav") =
      some { path := "files/s1/a.wav", modified := 0, size := 3,
             mime := "audio/wav", updated := 0, hash := HashVal.digest (md5 [1]) } ∨
     ∃ c, lookupEntry (putAndPostHandler ⟨[], [], []⟩ "s1" "a.wav" [1, 2, 3] 0
          ⟨false, some [1], false⟩).1.fs
        ({ path := "files/s1/a.wav", modified := 0, size := 3,
           mime := "audio/wav", updated := 0,
           hash := HashVal.digest (md5 [1]) } : AssetRecord).path = some c ∧
       ({ path := "files/s1/a.wav", modified := 0, size := 3,
          mime := "audio/wav", updated := 0,
          hash := HashVal.digest (md5 [1]) } : AssetRecord).hash =
         HashVal.digest (md5 c)) :=
  ⟨rfl, rfl, by decide,
    C7_hash_from_disk ⟨[], [], []⟩ "s1" "a.wav" [1, 2, 3] 0
      ⟨false, some [1], false⟩
      { path := "files/s1/a.wav", modified := 0, size := 3,
        mime := "audio/wav", updated := 0, hash := HashVal.digest (md5 [1]) }
      rfl rfl (by decide)⟩

/-- C9 — dotless filenames: when the filename contains no dot both handlers
derive the assetKey as the entire filename (so a fault-free upload stores the
record under the full filename and retrieval by that filename streams it
back), and when the filename starts with a dot the derived key is the empty
string. -/
theorem C9_dotless_key :
    (∀ f : String, (∀ c ∈ f.toList, c ≠ '.') → fileKeyOf f = f) ∧
    (∀ l : List Char, fileKeyOf (String.mk ('.' :: l)) = "") ∧
    ∀ (st : St) (s f : String) (data : Bytes) (now : Nat),
      (∀ c ∈ f.toList, c ≠ '.') →
      (findDocs st.store s).length ≤ 1 →
      (∃ r, recordOf (putAndPostHandler st s f data now (Fault.clean data)).1 s f =
        some r) ∧
      (getFileHandler (putAndPostHandler st s f data now (Fault.clean data)).1 s f).2 =
        GetFileResult.stream (mimeLookup f) data := by
  have htake : ∀ l : List Char, (∀ c ∈ l, c ≠ '.') →
      l.takeWhile (fun c => c != '.') = l := by
    intro l hl
    induction l with
    | nil => rfl
    | cons c cs ih =>
      have hc : (c != '.') = true := by simp [hl c (by simp)]
      simp [List.takeWhile_cons, hc, ih (fun c2 hc2 => hl c2 (by simp [hc2]))]
  have hkey : ∀ f : String, (∀ c ∈ f.toList, c ≠ '.') → fileKeyOf f = f := by
    intro f hf
    rw [fileKeyOf_eq_takeWhile, htake f.toList hf, mk_toList]
  refine ⟨hkey, ?_, ?_⟩
  · intro l
    rw [fileKeyOf_eq_takeWhile]
    simp [String.toList, List.takeWhile_cons]
  · intro st s f data now hnd h
    obtain ⟨-, hrec, -, -⟩ := clean_upload_post st s f data now h
    rw [hkey f hnd] at hrec
    refine ⟨⟨_, hrec⟩, ?_⟩
    rw [clean_upload_getFile st s f data now h]

/-- Witness for C9: a dotless filename stored and retrieved under itself. -/
theorem C9_dotless_key_witness :
    (∀ c ∈ ("myfile" : String).toList, c ≠ '.') ∧
    (findDocs (St.mk [] [] []).store "s4").length ≤ 1 ∧
    ((∃ r, recordOf (putAndPostHandler ⟨[], [], []⟩ "s4" "myfile" [7] 3
        (Fault.clean [7])).1 "s4" "myfile" = some r) ∧
      (getFileHandler (putAndPostHandler ⟨[], [], []⟩ "s4" "myfile" [7] 3
          (Fault.clean [7])).1 "s4" "myfile").2 =
        GetFileResult.stream (mimeLookup "myfile") [7]) :=
  ⟨by decide, by decide,
    C9_dotless_key.2.2 ⟨[], [], []⟩ "s4" "myfile" [7] 3 (by decide) (by decide)⟩

/-- C10 — both retrieval handlers are read-only: they return the metadata
store, the filesystem and the directory set unchanged in every case. -/
theorem C10_retrieval_readonly (st : St) (s f : String) :
    (getSessionHandler st s).1 = st ∧ (getFileHandler st s f).1 = st := by
  constructor
  · unfold getSessionHandler
    split <;> rfl
  · unfold getFileHandler
    split
    · rfl
    · split
      · rfl
      · split <;> rfl
    · rfl

end AssetStore
